import Mathlib

/-! The camera controller of `internal/staticsources/rpicamera/camera.go`.

A shallow embedding of the controller that supervises the external capture
process: the handshake reader `readReady`, the streaming loop `readData`, the
configure messages of `initialize` and `reloadParams`, and the effect order of
`initialize` and `close`.

Conventions of the embedding:

* a Go `[]byte` and a Go `string` are both `List Byte`, a byte being `Fin 256`;
* `uint64` values are naturals kept below `2 ^ 64` by an explicit `% 2 ^ 64`,
  `int64` values (`time.Duration`) are integers wrapped by `wrapInt64`;
* a Go index expression `buf[i]` is `buf[i]?`; `none` is the run-time panic
  "index out of range", which the embedding keeps as an outcome of its own;
* values produced outside `camera.go` (the result of `pipe.read`, of
  `h264.AnnexBUnmarshal`, of `params.serialize`, the errors of `newPipe`,
  `dumpComponent`, `cmd.Start` and `cmd.Wait`) are parameters.
-/

namespace RpiCamera

/-! ## Bytes and machine integers -/

/-- One byte of a Go `[]byte` or `string`. -/
abbrev Byte := Fin 256

/-- The byte `'e'`. -/
def tagE : Byte := 101

/-- The byte `'r'`. -/
def tagR : Byte := 114

/-- The byte `'b'`. -/
def tagB : Byte := 98

/-- The byte `'c'`. -/
def tagC : Byte := 99

/-- The bytes of a string constant of the source (all of them are ASCII). -/
def ascii (s : String) : List Byte :=
  s.toList.map (fun ch => Fin.ofNat ch.toNat)

/-- Go `uint64(x) << k`: the shift is taken modulo `2 ^ 64`. -/
def shl64 (x k : Nat) : Nat := (x <<< k) % 2 ^ 64

/-- The timestamp expression of `readData`,
`uint64(buf[8])<<56 | uint64(buf[7])<<48 | ... | uint64(buf[2])<<8 | uint64(buf[1])`,
on the eight bytes it reads (`|` associates to the left). -/
def decodeUint64 (b1 b2 b3 b4 b5 b6 b7 b8 : Byte) : Nat :=
  shl64 b8.val 56 ||| shl64 b7.val 48 ||| shl64 b6.val 40 ||| shl64 b5.val 32 |||
    shl64 b4.val 24 ||| shl64 b3.val 16 ||| shl64 b2.val 8 ||| b1.val

/-- The value `tmp` of `readData` for the buffer `buf`: the index expressions
are evaluated from `buf[8]` down to `buf[1]`, and `none` is the panic of an
index out of range. -/
def timestampOf (buf : List Byte) : Option Nat := do
  let b8 ← buf[8]?
  let b7 ← buf[7]?
  let b6 ← buf[6]?
  let b5 ← buf[5]?
  let b4 ← buf[4]?
  let b3 ← buf[3]?
  let b2 ← buf[2]?
  let b1 ← buf[1]?
  pure (decodeUint64 b1 b2 b3 b4 b5 b6 b7 b8)

/-- Two's complement wrap of an integer into the range of `int64`. -/
def wrapInt64 (n : Int) : Int := (n + 2 ^ 63) % 2 ^ 64 - 2 ^ 63

/-- The constant `time.Microsecond` of the Go standard library, in nanoseconds. -/
def microsecond : Int := 1000

/-- The value `dts := time.Duration(tmp) * time.Microsecond`: the conversion
of the `uint64` to the `int64` type `time.Duration`, then an `int64` product. -/
def durationOf (tmp : Nat) : Int :=
  wrapInt64 (wrapInt64 (tmp : Int) * microsecond)

/-- The eight little-endian bytes of a timestamp, low byte first, as the
capture process writes them after the tag `'b'` (the writer is not part of
`camera.go`; this follows the wire format of the specification). -/
def leBytes (t : Nat) : List Byte :=
  (List.range 8).map (fun i => Fin.ofNat (t / 256 ^ i))

/-- A `'b'` message: the tag, the little-endian timestamp, the Annex-B payload. -/
def videoFrame (t : Nat) (payload : List Byte) : List Byte :=
  tagB :: (leBytes t ++ payload)

/-! ## The formatting functions of the Go standard library used by `camera.go` -/

/-- A lower-case hexadecimal digit. -/
def hexDigit (d : Nat) : Byte :=
  if d < 10 then Fin.ofNat (48 + d) else Fin.ofNat (87 + d)

/-- The verb `%.2x` of package `fmt` on a `byte` operand: its value in
lower-case hexadecimal with at least two digits. -/
def fmtHex2 (x : Byte) : List Byte :=
  [hexDigit (x.val / 16), hexDigit (x.val % 16)]

/-- The verb `%c` of package `fmt` on a `byte` operand: the UTF-8 encoding of
the code point of that value (one byte below 128, else two bytes). -/
def fmtChar (x : Byte) : List Byte :=
  if x.val < 128 then [x] else [Fin.ofNat (192 + x.val / 64), Fin.ofNat (128 + x.val % 64)]

/-- The loop of `parsenum` of package `fmt`: the decimal digits at the head of
the segment, giving the number, whether a digit was read, and the bytes left;
a number above `1e6` gives up and skips to the end of the segment. -/
def parsenumLoop (num : Nat) (isnum : Bool) : List Byte → Nat × Bool × List Byte
  | [] => (num, isnum, [])
  | c :: rest =>
    if 48 ≤ c.val ∧ c.val ≤ 57 then
      if 1000000 < num then (0, false, [])
      else parsenumLoop (num * 10 + (c.val - 48)) true rest
    else (num, isnum, c :: rest)

/-- The function `parsenum` of package `fmt` on the segment between `start` and `end`. -/
def parsenum (seg : List Byte) : Nat × Bool × List Byte :=
  parsenumLoop 0 false seg

/-- The function `parseArgNumber` of package `fmt` on a format that starts with
`[`: how many bytes the index takes and whether it is well formed. -/
def parseArgNumber (s : List Byte) : Nat × Bool :=
  if s.length < 3 then (1, false)
  else
    let j := (s.drop 1).indexOf (93 : Byte)
    if j < (s.drop 1).length then
      let r := parsenum ((s.drop 1).take j)
      if r.2.1 = false ∨ r.2.2 ≠ [] then (j + 2, false) else (j + 2, true)
    else (1, false)

/-- The method `argNumber` of package `fmt` when the call has no operand: the
bytes left, whether an index was found, and the flag `goodArgNum`. -/
def argNumber (s : List Byte) (good : Bool) : List Byte × Bool × Bool :=
  match s with
  | c :: _ =>
    if c = (91 : Byte) then
      let r := parseArgNumber s
      (s.drop r.1, r.2, false)
    else (s, false, good)
  | [] => (s, false, good)

/-- The flags `#`, `0`, `+`, `-` and the space are skipped after a `%`. -/
def skipFlags : List Byte → List Byte
  | [] => []
  | c :: rest =>
    if c = (35 : Byte) ∨ c = (48 : Byte) ∨ c = (43 : Byte) ∨ c = (45 : Byte) ∨ c = (32 : Byte)
    then skipFlags rest else c :: rest

/-- Whether `c` is a UTF-8 continuation byte between `lo` and `hi`. -/
def inRange (lo hi : Nat) (c : Byte) : Bool := decide (lo ≤ c.val ∧ c.val ≤ hi)

/-- The verb of a format directive: `utf8.DecodeRuneInString` followed by
`writeRune`, giving the bytes written for the verb and the bytes left. A
malformed encoding takes one byte and is written as U+FFFD. -/
def verbBytes : List Byte → List Byte × List Byte
  | [] => ([], [])
  | c :: rest =>
    let bad : List Byte × List Byte := ([239, 191, 189], rest)
    if c.val < 128 then ([c], rest)
    else if c.val < 194 then bad
    else if c.val < 224 then
      match rest with
      | c1 :: r => if inRange 128 191 c1 then ([c, c1], r) else bad
      | _ => bad
    else if c.val < 240 then
      match rest with
      | c1 :: c2 :: r =>
        let lo := if c.val = 224 then 160 else 128
        let hi := if c.val = 237 then 159 else 191
        if inRange lo hi c1 && inRange 128 191 c2 then ([c, c1, c2], r) else bad
      | _ => bad
    else if c.val < 245 then
      match rest with
      | c1 :: c2 :: c3 :: r =>
        let lo := if c.val = 240 then 144 else 128
        let hi := if c.val = 244 then 143 else 191
        if inRange lo hi c1 && inRange 128 191 c2 && inRange 128 191 c3
        then ([c, c1, c2, c3], r) else bad
      | _ => bad
    else bad

/-- The variables of `doPrintf` inside one directive. -/
structure VerbState where
  /-- The bytes written for the directive so far. -/
  out : List Byte
  /-- The bytes of the format not yet read, `format[i:]`. -/
  rest : List Byte
  /-- The variable `afterIndex`. -/
  afterIndex : Bool
  /-- The field `goodArgNum`. -/
  goodArgNum : Bool

/-- The width of a directive ("Do we have width?"): a `*` has no operand to
take its value from, else `parsenum` reads the digits. -/
def widthPart (s : List Byte) (afterIndex good : Bool) : VerbState :=
  match s with
  | c :: rest =>
    if c = (42 : Byte) then ⟨ascii "%!(BADWIDTH)", rest, false, good⟩
    else
      let r := parsenum s
      ⟨[], r.2.2, afterIndex, if afterIndex && r.2.1 then false else good⟩
  | [] => ⟨[], [], afterIndex, good⟩

/-- The precision of a directive ("Do we have precision?"). -/
def precisionPart (w : VerbState) : VerbState :=
  match w.rest with
  | c :: rest =>
    if c = (46 : Byte) then
      let a := argNumber rest (if w.afterIndex then false else w.goodArgNum)
      match a.1 with
      | d :: rest2 =>
        if d = (42 : Byte) then ⟨w.out ++ ascii "%!(BADPREC)", rest2, false, a.2.2⟩
        else ⟨w.out, (parsenum a.1).2.2, a.2.1, a.2.2⟩
      | [] => ⟨w.out, [], a.2.1, a.2.2⟩
    else w
  | [] => w

/-- The end of a directive: a last argument index, then the verb, which has no
operand to print. -/
def verbPart (p : VerbState) : List Byte × List Byte :=
  let a := if p.afterIndex then (p.rest, true, p.goodArgNum) else argNumber p.rest p.goodArgNum
  match a.1 with
  | [] => (p.out ++ ascii "%!(NOVERB)", [])
  | c :: rest =>
    let v := verbBytes (c :: rest)
    if c = (37 : Byte) then (p.out ++ [c], v.2)
    else if a.2.2 = false then (p.out ++ ascii "%!" ++ v.1 ++ ascii "(BADINDEX)", v.2)
    else (p.out ++ ascii "%!" ++ v.1 ++ ascii "(MISSING)", v.2)

/-- One directive of `doPrintf` of package `fmt` when the call has no operand,
on the bytes that follow the `%`: the bytes written and the bytes left. -/
def directive (s0 : List Byte) : List Byte × List Byte :=
  let a := argNumber (skipFlags s0) true
  verbPart (precisionPart (widthPart a.1 a.2.1 a.2.2))

/-- The loop of `doPrintf` without operands: text is copied up to the next `%`,
then one directive is processed. -/
def doPrintfLoop : Nat → List Byte → List Byte
  | 0, _ => []
  | _ + 1, [] => []
  | fuel + 1, c :: rest =>
    if c = (37 : Byte) then
      let d := directive rest
      d.1 ++ doPrintfLoop fuel d.2
    else c :: doPrintfLoop fuel rest

/-- The text of `fmt.Errorf(format)` called with a format and no operand, as
`readReady` and `readData` call it on the bytes of an error frame. Every turn
of the loop takes at least one byte, so the length of the format plus one is
enough fuel. -/
def errorfText (format : List Byte) : List Byte :=
  doPrintfLoop (format.length + 1) format

/-! ## Errors and results -/

/-- The `error` values of `camera.go`; `ε` is the type of the errors made
outside this file. -/
inductive Err (ε : Type) where
  /-- An error of `dumpComponent`, `newPipe`, `cmd.Start`, `pipe.read` or
  `h264.AnnexBUnmarshal`, returned unchanged. -/
  | ext (e : ε)
  /-- The result of `fmt.Errorf`, with the text of its `Error` method. -/
  | errorf (text : List Byte)
  /-- The value `fmt.Errorf("process exited unexpectedly: %v", err)`, `err`
  being the result of `cmd.Wait` (`none` for `nil`). -/
  | exited (cause : Option ε)
  deriving DecidableEq

/-- How a function that returns `error` ends. -/
inductive Ret (ε : Type) where
  /-- It returns `nil`. -/
  | nil
  /-- It returns the error `e`. -/
  | err (e : Err ε)
  /-- It does not return: an index expression is out of range. -/
  | panic
  deriving DecidableEq

/-- The text `"unexpected output from video pipe: '0x%.2x'"` of `readReady`
formatted with the tag byte. -/
def unexpectedReady (x : Byte) : List Byte :=
  ascii "unexpected output from video pipe: '0x" ++ fmtHex2 x ++ ascii "'"

/-- The text `"unexpected output from pipe (%c)"` of `readData` formatted with
the tag byte. -/
def unexpectedData (x : Byte) : List Byte :=
  ascii "unexpected output from pipe (" ++ fmtChar x ++ ascii ")"

/-! ## The readers -/

/-- The method `readReady`, as a function of the result of its one call of
`c.pipeIn.read()`. -/
def readReady {ε : Type} (read : Except ε (List Byte)) : Ret ε :=
  match read with
  | .error e => .err (.ext e)
  | .ok buf =>
    match buf[0]? with
    | none => .panic
    | some tag =>
      if tag = tagE then .err (.errorf (errorfText (buf.drop 1)))
      else if tag = tagR then .nil
      else .err (.errorf (unexpectedReady tag))

/-- A call of the callback `c.OnData(dts, nalus)`. -/
abbrev Call := Int × List (List Byte)

/-- What one turn of the loop of `readData` does with the buffer it has read. -/
inductive Step (ε : Type) where
  /-- The callback is called and the loop goes on. -/
  | called (dts : Int) (nalus : List (List Byte))
  /-- The loop ends, `readData` returns the error. -/
  | returned (e : Err ε)
  /-- An index expression is out of range. -/
  | panic
  deriving DecidableEq

/-- The body of the loop of `readData` after a successful read; `unmarshal` is
`h264.AnnexBUnmarshal`. -/
def readDataStep {ε : Type} (unmarshal : List Byte → Except ε (List (List Byte)))
    (buf : List Byte) : Step ε :=
  match buf[0]? with
  | none => .panic
  | some tag =>
    if tag = tagE then .returned (.errorf (errorfText (buf.drop 1)))
    else if tag = tagB then
      match timestampOf buf with
      | none => .panic
      | some tmp =>
        match unmarshal (buf.drop 9) with
        | .error e => .returned (.ext e)
        | .ok nalus => .called (durationOf tmp) nalus
    else .returned (.errorf (unexpectedData tag))

/-- The method `readData` on an inbound pipe that delivers the messages `msgs`
in turn and then fails with `fail`: the calls of the callback in the order
they are made, and how the loop ends. -/
def readData {ε : Type} (unmarshal : List Byte → Except ε (List (List Byte))) :
    List (List Byte) → ε → List Call × Ret ε
  | [], fail => ([], .err (.ext fail))
  | buf :: rest, fail =>
    match readDataStep unmarshal buf with
    | .called dts nalus =>
      ((dts, nalus) :: (readData unmarshal rest fail).1, (readData unmarshal rest fail).2)
    | .returned e => ([], .err e)
    | .panic => ([], .panic)

/-- The call the loop of `readData` makes for a message, when it makes one. -/
def callOf {ε : Type} (unmarshal : List Byte → Except ε (List (List Byte)))
    (buf : List Byte) : Option Call :=
  match readDataStep unmarshal buf with
  | .called dts nalus => some (dts, nalus)
  | _ => none

/-- A well-formed `'b'` message: the tag `'b'`, the eight bytes of the
timestamp, and a payload that `h264.AnnexBUnmarshal` accepts. -/
def wellFormedB {ε : Type} (unmarshal : List Byte → Except ε (List (List Byte)))
    (buf : List Byte) : Bool :=
  buf[0]? = some tagB && decide (9 ≤ buf.length) && (unmarshal (buf.drop 9)).isOk

/-- A truncated message: an empty one, or a `'b'` message of fewer than nine bytes. -/
def truncated (buf : List Byte) : Bool :=
  buf[0]? = none || (buf[0]? = some tagB && decide (buf.length < 9))

/-! ## The effects of `initialize`, `close` and `reloadParams` -/

/-- The effects of the controller, in the order the source performs them. -/
inductive Effect where
  /-- `dumpComponent()`. -/
  | dumpComponent
  /-- `freeComponent()`. -/
  | freeComponent
  /-- `c.pipeOut, err = newPipe()`. -/
  | newPipeOut
  /-- `c.pipeIn, err = newPipe()`. -/
  | newPipeIn
  /-- `c.cmd.Start()`. -/
  | cmdStart
  /-- `c.pipeOut.write(msg)`. -/
  | writeOut (msg : List Byte)
  /-- `c.pipeOut.close()`. -/
  | closeOut
  /-- `c.pipeIn.close()`. -/
  | closeIn
  /-- `go func() { c.waitDone <- c.cmd.Wait() }()`. -/
  | goWait
  /-- `go func() { c.readerDone <- c.readReady() }()`. -/
  | goReadReady
  /-- `go func() { c.readerDone <- c.readData(); close(c.readerDone) }()`. -/
  | goReadData
  /-- A receive `<-c.waitDone`. -/
  | recvWaitDone
  /-- A receive `<-c.readerDone`. -/
  | recvReaderDone
  deriving DecidableEq

/-- Which case of the `select` of `initialize` is taken. -/
inductive Race where
  /-- The case `err := <-c.waitDone`: the process has exited. -/
  | exitFirst
  /-- The case `err := <-c.readerDone`: the handshake reader has finished. -/
  | readerFirst
  deriving DecidableEq

/-- The outcomes of the steps of `initialize`; an error is `some`, `nil` is `none`. -/
structure InitOutcomes (ε : Type) where
  /-- The result of `dumpComponent()`. -/
  dump : Option ε
  /-- The error of the first `newPipe()`. -/
  pipeOut : Option ε
  /-- The error of the second `newPipe()`. -/
  pipeIn : Option ε
  /-- The result of `c.cmd.Start()`. -/
  start : Option ε
  /-- The case of the `select` that is taken. -/
  first : Race
  /-- The result of `c.cmd.Wait()`. -/
  exit : Option ε
  /-- The result of the call of `c.pipeIn.read()` in `readReady`. -/
  inbound : Except ε (List Byte)

/-- The configure message `append([]byte{'c'}, p.serialize()...)`. -/
def configureMsg {P : Type} (serialize : P → List Byte) (p : P) : List Byte :=
  [tagC] ++ serialize p

/-- The effects up to the `select` of `initialize` when every step before it succeeds. -/
def startedTrace {P : Type} (serialize : P → List Byte) (p : P) : List Effect :=
  [.dumpComponent, .newPipeOut, .newPipeIn, .cmdStart,
    .writeOut (configureMsg serialize p), .goWait, .goReadReady]

/-- The method `initialize` of `camera` for `c.Params = p`: the effects it performs, in
order, and how it ends. When the handshake reader panics the value it would
send never arrives, and the trace stops at the receive that waits for it. -/
def initializeCamera {ε P : Type} (serialize : P → List Byte) (p : P) (o : InitOutcomes ε) :
    List Effect × Ret ε :=
  match o.dump with
  | some e => ([.dumpComponent], .err (.ext e))
  | none =>
    match o.pipeOut with
    | some e => ([.dumpComponent, .newPipeOut, .freeComponent], .err (.ext e))
    | none =>
      match o.pipeIn with
      | some e =>
        ([.dumpComponent, .newPipeOut, .newPipeIn, .closeOut, .freeComponent], .err (.ext e))
      | none =>
        match o.start with
        | some e =>
          ([.dumpComponent, .newPipeOut, .newPipeIn, .cmdStart, .closeOut, .closeIn,
            .freeComponent], .err (.ext e))
        | none =>
          match o.first with
          | .exitFirst =>
            match readReady o.inbound with
            | .panic =>
              (startedTrace serialize p ++ [.recvWaitDone, .closeOut, .closeIn], .panic)
            | _ =>
              (startedTrace serialize p
                ++ [.recvWaitDone, .closeOut, .closeIn, .recvReaderDone, .freeComponent],
                .err (.exited o.exit))
          | .readerFirst =>
            match readReady o.inbound with
            | .panic => (startedTrace serialize p, .panic)
            | .err e =>
              (startedTrace serialize p
                ++ [.recvReaderDone, .writeOut [tagE], .recvWaitDone, .closeOut, .closeIn,
                  .freeComponent], .err e)
            | .nil => (startedTrace serialize p ++ [.recvReaderDone, .goReadData], .nil)

/-- The effects of the method `close`, in the order of the source. -/
def close : List Effect :=
  [.writeOut [tagE], .recvWaitDone, .closeOut, .closeIn, .recvReaderDone, .freeComponent]

/-- The effect of the method `reloadParams`. -/
def reloadParams {P : Type} (serialize : P → List Byte) (p : P) : List Effect :=
  [.writeOut (configureMsg serialize p)]

/-! ## Lemmas on the timestamp field -/

theorem shl64_byte (b : Byte) (k : Nat) (hk : k ≤ 56) : shl64 b.val k = b.val * 2 ^ k := by
  unfold shl64
  rw [Nat.shiftLeft_eq]
  apply Nat.mod_eq_of_lt
  have hb : b.val < 2 ^ 8 := b.isLt
  calc b.val * 2 ^ k < 2 ^ 8 * 2 ^ k := Nat.mul_lt_mul_of_pos_right hb (Nat.two_pow_pos k)
    _ = 2 ^ (8 + k) := (Nat.pow_add 2 8 k).symm
    _ ≤ 2 ^ 64 := Nat.pow_le_pow_right (by decide) (by omega)

theorem or_low (k a lo : Nat) (h : lo < 2 ^ k) : (2 ^ k * a) ||| lo = 2 ^ k * a + lo :=
  (Nat.mul_add_lt_is_or h a).symm

theorem decodeUint64_eq_sum (b1 b2 b3 b4 b5 b6 b7 b8 : Byte) :
    decodeUint64 b1 b2 b3 b4 b5 b6 b7 b8
      = b1.val + b2.val * 256 + b3.val * 256 ^ 2 + b4.val * 256 ^ 3 + b5.val * 256 ^ 4
        + b6.val * 256 ^ 5 + b7.val * 256 ^ 6 + b8.val * 256 ^ 7 := by
  unfold decodeUint64
  simp only [shl64_byte _ _ (by decide : (56 : Nat) ≤ 56), shl64_byte _ _ (by decide : (48 : Nat) ≤ 56),
    shl64_byte _ _ (by decide : (40 : Nat) ≤ 56), shl64_byte _ _ (by decide : (32 : Nat) ≤ 56),
    shl64_byte _ _ (by decide : (24 : Nat) ≤ 56), shl64_byte _ _ (by decide : (16 : Nat) ≤ 56),
    shl64_byte _ _ (by decide : (8 : Nat) ≤ 56)]
  have h1 := b1.isLt
  have h2 := b2.isLt
  have h3 := b3.isLt
  have h4 := b4.isLt
  have h5 := b5.isLt
  have h6 := b6.isLt
  have h7 := b7.isLt
  have h8 := b8.isLt
  have e7 : b8.val * 2 ^ 56 ||| b7.val * 2 ^ 48 = b8.val * 2 ^ 56 + b7.val * 2 ^ 48 := by
    have := or_low 56 b8.val (b7.val * 2 ^ 48) (by norm_num; omega)
    rw [Nat.mul_comm (2 ^ 56)] at this
    exact this
  rw [e7]
  have e6 : (b8.val * 2 ^ 56 + b7.val * 2 ^ 48) ||| b6.val * 2 ^ 40
      = b8.val * 2 ^ 56 + b7.val * 2 ^ 48 + b6.val * 2 ^ 40 := by
    have := or_low 48 (b8.val * 2 ^ 8 + b7.val) (b6.val * 2 ^ 40) (by norm_num; omega)
    have e : 2 ^ 48 * (b8.val * 2 ^ 8 + b7.val) = b8.val * 2 ^ 56 + b7.val * 2 ^ 48 := by
      norm_num; omega
    rw [e] at this
    exact this
  rw [e6]
  have e5 : (b8.val * 2 ^ 56 + b7.val * 2 ^ 48 + b6.val * 2 ^ 40) ||| b5.val * 2 ^ 32
      = b8.val * 2 ^ 56 + b7.val * 2 ^ 48 + b6.val * 2 ^ 40 + b5.val * 2 ^ 32 := by
    have := or_low 40 (b8.val * 2 ^ 16 + b7.val * 2 ^ 8 + b6.val) (b5.val * 2 ^ 32)
      (by norm_num; omega)
    have e : 2 ^ 40 * (b8.val * 2 ^ 16 + b7.val * 2 ^ 8 + b6.val)
        = b8.val * 2 ^ 56 + b7.val * 2 ^ 48 + b6.val * 2 ^ 40 := by
      norm_num; omega
    rw [e] at this
    exact this
  rw [e5]
  have e4 : (b8.val * 2 ^ 56 + b7.val * 2 ^ 48 + b6.val * 2 ^ 40 + b5.val * 2 ^ 32)
        ||| b4.val * 2 ^ 24
      = b8.val * 2 ^ 56 + b7.val * 2 ^ 48 + b6.val * 2 ^ 40 + b5.val * 2 ^ 32
        + b4.val * 2 ^ 24 := by
    have := or_low 32 (b8.val * 2 ^ 24 + b7.val * 2 ^ 16 + b6.val * 2 ^ 8 + b5.val)
      (b4.val * 2 ^ 24) (by norm_num; omega)
    have e : 2 ^ 32 * (b8.val * 2 ^ 24 + b7.val * 2 ^ 16 + b6.val * 2 ^ 8 + b5.val)
        = b8.val * 2 ^ 56 + b7.val * 2 ^ 48 + b6.val * 2 ^ 40 + b5.val * 2 ^ 32 := by
      norm_num; omega
    rw [e] at this
    exact this
  rw [e4]
  have e3 : (b8.val * 2 ^ 56 + b7.val * 2 ^ 48 + b6.val * 2 ^ 40 + b5.val * 2 ^ 32
        + b4.val * 2 ^ 24) ||| b3.val * 2 ^ 16
      = b8.val * 2 ^ 56 + b7.val * 2 ^ 48 + b6.val * 2 ^ 40 + b5.val * 2 ^ 32
        + b4.val * 2 ^ 24 + b3.val * 2 ^ 16 := by
    have := or_low 24
      (b8.val * 2 ^ 32 + b7.val * 2 ^ 24 + b6.val * 2 ^ 16 + b5.val * 2 ^ 8 + b4.val)
      (b3.val * 2 ^ 16) (by norm_num; omega)
    have e : 2 ^ 24
        * (b8.val * 2 ^ 32 + b7.val * 2 ^ 24 + b6.val * 2 ^ 16 + b5.val * 2 ^ 8 + b4.val)
        = b8.val * 2 ^ 56 + b7.val * 2 ^ 48 + b6.val * 2 ^ 40 + b5.val * 2 ^ 32
          + b4.val * 2 ^ 24 := by
      norm_num; omega
    rw [e] at this
    exact this
  rw [e3]
  have e2 : (b8.val * 2 ^ 56 + b7.val * 2 ^ 48 + b6.val * 2 ^ 40 + b5.val * 2 ^ 32
        + b4.val * 2 ^ 24 + b3.val * 2 ^ 16) ||| b2.val * 2 ^ 8
      = b8.val * 2 ^ 56 + b7.val * 2 ^ 48 + b6.val * 2 ^ 40 + b5.val * 2 ^ 32
        + b4.val * 2 ^ 24 + b3.val * 2 ^ 16 + b2.val * 2 ^ 8 := by
    have := or_low 16
      (b8.val * 2 ^ 40 + b7.val * 2 ^ 32 + b6.val * 2 ^ 24 + b5.val * 2 ^ 16
        + b4.val * 2 ^ 8 + b3.val)
      (b2.val * 2 ^ 8) (by norm_num; omega)
    have e : 2 ^ 16
        * (b8.val * 2 ^ 40 + b7.val * 2 ^ 32 + b6.val * 2 ^ 24 + b5.val * 2 ^ 16
          + b4.val * 2 ^ 8 + b3.val)
        = b8.val * 2 ^ 56 + b7.val * 2 ^ 48 + b6.val * 2 ^ 40 + b5.val * 2 ^ 32
          + b4.val * 2 ^ 24 + b3.val * 2 ^ 16 := by
      norm_num; omega
    rw [e] at this
    exact this
  rw [e2]
  have e1 : (b8.val * 2 ^ 56 + b7.val * 2 ^ 48 + b6.val * 2 ^ 40 + b5.val * 2 ^ 32
        + b4.val * 2 ^ 24 + b3.val * 2 ^ 16 + b2.val * 2 ^ 8) ||| b1.val
      = b8.val * 2 ^ 56 + b7.val * 2 ^ 48 + b6.val * 2 ^ 40 + b5.val * 2 ^ 32
        + b4.val * 2 ^ 24 + b3.val * 2 ^ 16 + b2.val * 2 ^ 8 + b1.val := by
    have := or_low 8
      (b8.val * 2 ^ 48 + b7.val * 2 ^ 40 + b6.val * 2 ^ 32 + b5.val * 2 ^ 24
        + b4.val * 2 ^ 16 + b3.val * 2 ^ 8 + b2.val)
      b1.val (lt_of_lt_of_eq h1 (by norm_num))
    have e : 2 ^ 8
        * (b8.val * 2 ^ 48 + b7.val * 2 ^ 40 + b6.val * 2 ^ 32 + b5.val * 2 ^ 24
          + b4.val * 2 ^ 16 + b3.val * 2 ^ 8 + b2.val)
        = b8.val * 2 ^ 56 + b7.val * 2 ^ 48 + b6.val * 2 ^ 40 + b5.val * 2 ^ 32
          + b4.val * 2 ^ 24 + b3.val * 2 ^ 16 + b2.val * 2 ^ 8 := by
      norm_num; omega
    rw [e] at this
    exact this
  rw [e1]
  norm_num
  omega

theorem timestampOf_cons (tag b1 b2 b3 b4 b5 b6 b7 b8 : Byte) (rest : List Byte) :
    timestampOf (tag :: b1 :: b2 :: b3 :: b4 :: b5 :: b6 :: b7 :: b8 :: rest)
      = some (decodeUint64 b1 b2 b3 b4 b5 b6 b7 b8) := by
  simp [timestampOf]

theorem leBytes_sum (t : Nat) (ht : t < 2 ^ 64) :
    t % 256 + t / 256 % 256 * 256 + t / 256 ^ 2 % 256 * 256 ^ 2 + t / 256 ^ 3 % 256 * 256 ^ 3
      + t / 256 ^ 4 % 256 * 256 ^ 4 + t / 256 ^ 5 % 256 * 256 ^ 5 + t / 256 ^ 6 % 256 * 256 ^ 6
      + t / 256 ^ 7 % 256 * 256 ^ 7 = t := by
  norm_num at ht ⊢
  omega

/-- C1: the timestamp that `readData` decodes from a `'b'` message holding the
eight little-endian bytes of `t`, for `t` below `2 ^ 64`, is `t`; and for any
eight bytes `b1 .. b8` at the positions 1 to 8 the decoded value is the sum of
`b_i * 256 ^ (i - 1)`. -/
theorem C1_timestamp_roundtrip (t : Nat) (ht : t < 2 ^ 64) (payload : List Byte) :
    timestampOf (videoFrame t payload) = some t
    ∧ ∀ (tag b1 b2 b3 b4 b5 b6 b7 b8 : Byte) (rest : List Byte),
        timestampOf (tag :: b1 :: b2 :: b3 :: b4 :: b5 :: b6 :: b7 :: b8 :: rest)
          = some (b1.val + b2.val * 256 + b3.val * 256 ^ 2 + b4.val * 256 ^ 3
              + b5.val * 256 ^ 4 + b6.val * 256 ^ 5 + b7.val * 256 ^ 6 + b8.val * 256 ^ 7) := by
  constructor
  · have h : videoFrame t payload
        = tagB :: Fin.ofNat (t / 256 ^ 0) :: Fin.ofNat (t / 256 ^ 1) :: Fin.ofNat (t / 256 ^ 2)
          :: Fin.ofNat (t / 256 ^ 3) :: Fin.ofNat (t / 256 ^ 4) :: Fin.ofNat (t / 256 ^ 5)
          :: Fin.ofNat (t / 256 ^ 6) :: Fin.ofNat (t / 256 ^ 7) :: payload := rfl
    rw [h, timestampOf_cons, decodeUint64_eq_sum]
    have e := leBytes_sum t ht
    simp only [Fin.ofNat, pow_zero, pow_one, Nat.div_one] at e ⊢
    exact congrArg some e
  · intro tag b1 b2 b3 b4 b5 b6 b7 b8 rest
    rw [timestampOf_cons, decodeUint64_eq_sum]

theorem C1_timestamp_roundtrip_witness :
    (1000000 : Nat) < 2 ^ 64 ∧ timestampOf (videoFrame 1000000 [0, 0, 0, 1, 5]) = some 1000000 :=
  ⟨by norm_num, (C1_timestamp_roundtrip 1000000 (by norm_num) [0, 0, 0, 1, 5]).1⟩

/-- C2 fails as stated: for the timestamp 9223372036854776, which is below
`2 ^ 64`, the `int64` product `time.Duration(t) * time.Microsecond` wraps
around and is not `t * 1000`. -/
theorem C2_counterexample :
    ¬ ∀ t : Nat, t < 2 ^ 64 → durationOf t = (t : Int) * 1000 := by
  intro h
  have := h 9223372036854776 (by norm_num)
  revert this
  decide

/-- C2, amended: the duration handed to the callback is `t * 1000` nanoseconds
exactly when `t` is at most 9223372036854775, that is when `t * 1000` fits the
signed 64-bit type `time.Duration`. -/
theorem C2_duration_exact_iff (t : Nat) :
    durationOf t = (t : Int) * 1000 ↔ t ≤ 9223372036854775 := by
  unfold durationOf wrapInt64 microsecond
  norm_num
  omega


/-! ## The step of `readData` -/

theorem timestampOf_short (buf : List Byte) (h : buf.length ≤ 8) : timestampOf buf = none := by
  have h8 : buf[8]? = none := List.getElem?_eq_none (by omega)
  simp [timestampOf, h8]

theorem timestampOf_long (buf : List Byte) (h : 9 ≤ buf.length) :
    ∃ tmp, timestampOf buf = some tmp := by
  match buf, h with
  | tag :: b1 :: b2 :: b3 :: b4 :: b5 :: b6 :: b7 :: b8 :: rest, _ =>
    exact ⟨_, timestampOf_cons tag b1 b2 b3 b4 b5 b6 b7 b8 rest⟩

theorem readDataStep_truncated {ε : Type} (unmarshal : List Byte → Except ε (List (List Byte)))
    (rest : List Byte) (h : rest.length ≤ 7) :
    readDataStep unmarshal (tagB :: rest) = .panic := by
  have ht : timestampOf (tagB :: rest) = none :=
    timestampOf_short _ (by simp only [List.length_cons]; omega)
  have ht' : timestampOf ((98 : Byte) :: rest) = none := ht
  simp [readDataStep, ht', tagB, tagE]

theorem readDataStep_full {ε : Type} (unmarshal : List Byte → Except ε (List (List Byte)))
    (rest : List Byte) (h : 8 ≤ rest.length) :
    ∃ tmp, timestampOf (tagB :: rest) = some tmp
      ∧ ((∃ nalus, unmarshal ((tagB :: rest).drop 9) = .ok nalus
            ∧ readDataStep unmarshal (tagB :: rest) = .called (durationOf tmp) nalus)
        ∨ (∃ e, unmarshal ((tagB :: rest).drop 9) = .error e
            ∧ readDataStep unmarshal (tagB :: rest) = .returned (.ext e))) := by
  obtain ⟨tmp, ht⟩ := timestampOf_long (tagB :: rest) (by simp only [List.length_cons]; omega)
  refine ⟨tmp, ht, ?_⟩
  have ht' : timestampOf ((98 : Byte) :: rest) = some tmp := ht
  cases hu : unmarshal ((tagB :: rest).drop 9) with
  | error e =>
    right
    refine ⟨e, rfl, ?_⟩
    simp only [List.drop_succ_cons] at hu
    simp [readDataStep, ht', hu, tagB, tagE]
  | ok nalus =>
    left
    refine ⟨nalus, rfl, ?_⟩
    simp only [List.drop_succ_cons] at hu
    simp [readDataStep, ht', hu, tagB, tagE]

/-- C3: a `'b'` message of four bytes, too short to hold its timestamp, makes
the step of `readData` fail on the index expression `buf[8]`; no error is
returned. -/
theorem C3_truncated_frame_panics {ε : Type}
    (unmarshal : List Byte → Except ε (List (List Byte))) :
    readDataStep unmarshal [tagB, 1, 2, 3] = .panic :=
  readDataStep_truncated unmarshal [1, 2, 3] (by decide)

/-! ## The fuel of the formatting loop -/

theorem skipFlags_length (s : List Byte) : (skipFlags s).length ≤ s.length := by
  induction s with
  | nil => simp [skipFlags]
  | cons c rest ih =>
    unfold skipFlags
    split
    · simp only [List.length_cons]; omega
    · exact Nat.le_refl _

theorem parsenumLoop_length (s : List Byte) (num : Nat) (isnum : Bool) :
    (parsenumLoop num isnum s).2.2.length ≤ s.length := by
  induction s generalizing num isnum with
  | nil => simp [parsenumLoop]
  | cons c rest ih =>
    unfold parsenumLoop
    split
    · split
      · simp
      · have := ih (num * 10 + (c.val - 48)) true
        simp only [List.length_cons]; omega
    · exact Nat.le_refl _

theorem argNumber_length (s : List Byte) (good : Bool) :
    (argNumber s good).1.length ≤ s.length := by
  unfold argNumber
  split
  · split
    · simp only [List.length_drop]; omega
    · exact Nat.le_refl _
  · exact Nat.le_refl _

theorem widthPart_length (s : List Byte) (afterIndex good : Bool) :
    (widthPart s afterIndex good).rest.length ≤ s.length := by
  unfold widthPart
  split
  · split
    · simp only [List.length_cons]; omega
    · exact parsenumLoop_length _ 0 false
  · exact Nat.le_refl _

theorem precisionPart_length (w : VerbState) :
    (precisionPart w).rest.length ≤ w.rest.length := by
  unfold precisionPart
  split
  · rename_i c rest hw
    split
    · have ha := argNumber_length rest (if w.afterIndex then false else w.goodArgNum)
      simp only [hw, List.length_cons]
      split
      · rename_i d rest2 hd
        rw [hd] at ha
        simp only [List.length_cons] at ha
        split
        · show rest2.length ≤ rest.length + 1
          omega
        · have hp := parsenumLoop_length (d :: rest2) 0 false
          simp only [List.length_cons] at hp
          simp only [hd]
          unfold parsenum
          omega
      · show (0 : Nat) ≤ rest.length + 1
        omega
    · exact Nat.le_refl _
  · exact Nat.le_refl _

theorem verbBytes_length (s : List Byte) : (verbBytes s).2.length ≤ s.length := by
  unfold verbBytes
  split
  · exact Nat.le_refl _
  · simp only [List.length_cons]
    repeat' split
    all_goals simp only [List.length_cons]
    all_goals omega

theorem verbPart_length (p : VerbState) : (verbPart p).2.length ≤ p.rest.length := by
  unfold verbPart
  have ha : (if p.afterIndex then (p.rest, true, p.goodArgNum)
      else argNumber p.rest p.goodArgNum).1.length ≤ p.rest.length := by
    split
    · exact Nat.le_refl _
    · exact argNumber_length _ _
  simp only []
  generalize (if p.afterIndex then (p.rest, true, p.goodArgNum)
      else argNumber p.rest p.goodArgNum) = a at ha
  split
  · simp
  · rename_i c rest hc
    rw [hc] at ha
    have hv := verbBytes_length (c :: rest)
    split
    · exact Nat.le_trans hv ha
    · split
      · exact Nat.le_trans hv ha
      · exact Nat.le_trans hv ha

theorem directive_length (s : List Byte) : (directive s).2.length ≤ s.length := by
  unfold directive
  have h1 := skipFlags_length s
  have h2 := argNumber_length (skipFlags s) true
  have h3 := widthPart_length (argNumber (skipFlags s) true).1
    (argNumber (skipFlags s) true).2.1 (argNumber (skipFlags s) true).2.2
  have h4 := precisionPart_length (widthPart (argNumber (skipFlags s) true).1
    (argNumber (skipFlags s) true).2.1 (argNumber (skipFlags s) true).2.2)
  have h5 := verbPart_length (precisionPart (widthPart (argNumber (skipFlags s) true).1
    (argNumber (skipFlags s) true).2.1 (argNumber (skipFlags s) true).2.2))
  simp only []
  omega

/-- The loop of `doPrintf` gives the same text for any fuel above the length
of the format: the fuel of `errorfText` never runs out. -/
theorem doPrintfLoop_fuel (n : Nat) (s : List Byte) (f g : Nat) (hn : s.length ≤ n)
    (hf : s.length < f) (hg : s.length < g) : doPrintfLoop f s = doPrintfLoop g s := by
  induction n generalizing s f g with
  | zero =>
    have hs : s = [] := List.eq_nil_of_length_eq_zero (by omega)
    subst hs
    cases f with
    | zero => exact absurd hf (by simp)
    | succ f =>
      cases g with
      | zero => exact absurd hg (by simp)
      | succ g => rfl
  | succ n ih =>
    cases s with
    | nil =>
      cases f with
      | zero => exact absurd hf (by simp)
      | succ f =>
        cases g with
        | zero => exact absurd hg (by simp)
        | succ g => rfl
    | cons c rest =>
      simp only [List.length_cons] at hn hf hg
      cases f with
      | zero => omega
      | succ f =>
        cases g with
        | zero => omega
        | succ g =>
          have hd := directive_length rest
          simp only [doPrintfLoop]
          split
          · rw [ih (directive rest).2 f g (by omega) (by omega) (by omega)]
          · rw [ih rest f g (by omega) (by omega) (by omega)]

/-! ## The text of the errors -/

theorem doPrintfLoop_plain (m : List Byte) (h : ∀ c ∈ m, c ≠ (37 : Byte)) (fuel : Nat)
    (hf : m.length < fuel) : doPrintfLoop fuel m = m := by
  induction m generalizing fuel with
  | nil =>
    cases fuel with
    | zero => exact absurd hf (by simp)
    | succ n => rfl
  | cons c rest ih =>
    cases fuel with
    | zero => exact absurd hf (by simp)
    | succ n =>
      have hc : c ≠ (37 : Byte) := h c (List.mem_cons_self c rest)
      have hr : ∀ d ∈ rest, d ≠ (37 : Byte) := fun d hd => h d (List.mem_cons_of_mem c hd)
      have hl : rest.length < n := by simp only [List.length_cons] at hf; omega
      simp [doPrintfLoop, hc, ih hr n hl]

theorem errorfText_plain (m : List Byte) (h : ∀ c ∈ m, c ≠ (37 : Byte)) : errorfText m = m :=
  doPrintfLoop_plain m h (m.length + 1) (Nat.lt_succ_self _)

theorem errorfText_trailing_percent :
    errorfText (ascii "100%") = ascii "100%!(NOVERB)" := by
  decide

/-- C4: for the error frame `e100%` the text of the error that `readReady`
and `readData` return is `100%!(NOVERB)`, not the message `100%` of the frame:
the message is passed to `fmt.Errorf` as the format. -/
theorem C4_error_text_is_reformatted {ε : Type}
    (unmarshal : List Byte → Except ε (List (List Byte))) :
    readReady (ε := ε) (.ok (tagE :: ascii "100%")) = .err (.errorf (ascii "100%!(NOVERB)"))
    ∧ readDataStep unmarshal (tagE :: ascii "100%")
        = .returned (.errorf (ascii "100%!(NOVERB)"))
    ∧ ascii "100%!(NOVERB)" ≠ ascii "100%" := by
  refine ⟨?_, ?_, by decide⟩
  · simp [readReady, errorfText_trailing_percent]
  · simp [readDataStep, errorfText_trailing_percent]

theorem readReady_error_frame_plain {ε : Type} (m : List Byte)
    (h : ∀ c ∈ m, c ≠ (37 : Byte)) :
    readReady (ε := ε) (.ok (tagE :: m)) = .err (.errorf m) := by
  simp [readReady, errorfText_plain m h]

theorem readDataStep_error_frame_plain {ε : Type}
    (unmarshal : List Byte → Except ε (List (List Byte))) (m : List Byte)
    (h : ∀ c ∈ m, c ≠ (37 : Byte)) :
    readDataStep unmarshal (tagE :: m) = .returned (.errorf m) := by
  simp [readDataStep, errorfText_plain m h]

/-! ## The handshake reader -/

theorem readReady_nil_iff {ε : Type} (read : Except ε (List Byte)) :
    readReady read = .nil ↔ ∃ buf, read = .ok buf ∧ buf[0]? = some tagR := by
  cases read with
  | error e => simp [readReady]
  | ok buf =>
    cases buf with
    | nil => simp [readReady]
    | cons tag rest =>
      by_cases he : tag = tagE
      · subst he
        simp [readReady, tagE, tagR]
      · by_cases hr : tag = tagR
        · subst hr
          simp [readReady, tagE, tagR]
        · simp [readReady, he, hr]

theorem readReady_unexpected {ε : Type} (x : Byte) (rest : List Byte)
    (he : x ≠ tagE) (hr : x ≠ tagR) :
    readReady (ε := ε) (.ok (x :: rest)) = .err (.errorf (unexpectedReady x)) := by
  simp [readReady, he, hr]

theorem initializeCamera_nil {ε P : Type} (serialize : P → List Byte) (p : P)
    (o : InitOutcomes ε)
    (h : (initializeCamera serialize p o).2 = .nil
      ∨ Effect.goReadData ∈ (initializeCamera serialize p o).1) :
    readReady o.inbound = .nil := by
  unfold initializeCamera at h
  cases hd : o.dump <;> simp only [hd] at h
  case some e => simp at h
  cases hpo : o.pipeOut <;> simp only [hpo] at h
  case some e => simp at h
  cases hpi : o.pipeIn <;> simp only [hpi] at h
  case some e => simp at h
  cases hs : o.start <;> simp only [hs] at h
  case some e => simp at h
  cases hf : o.first <;> simp only [hf] at h
  · cases hr : readReady o.inbound <;> simp [hr, startedTrace] at h
  · cases hr : readReady o.inbound <;> simp [hr, startedTrace] at h
    rfl

/-- C5: `readReady` returns `nil` exactly when its read succeeds with a
message whose first byte is `'r'`; a `'b'` message makes it return an error;
and `initialize` returns `nil`, or starts the goroutine of `readData` (the only
caller of the data callback), only after a read of a message that starts with `'r'`. -/
theorem C5_ready_required {ε P : Type} (serialize : P → List Byte) (p : P) :
    (∀ read : Except ε (List Byte),
        readReady read = .nil ↔ ∃ buf, read = .ok buf ∧ buf[0]? = some tagR)
    ∧ (∀ rest : List Byte,
        readReady (ε := ε) (.ok (tagB :: rest)) = .err (.errorf (unexpectedReady tagB)))
    ∧ (∀ o : InitOutcomes ε,
        ((initializeCamera serialize p o).2 = .nil
          ∨ Effect.goReadData ∈ (initializeCamera serialize p o).1) →
        ∃ buf, o.inbound = .ok buf ∧ buf[0]? = some tagR)
    ∧ (∀ (o : InitOutcomes ε) (rest : List Byte), o.inbound = .ok (tagB :: rest) →
        (initializeCamera serialize p o).2 ≠ .nil
          ∧ Effect.goReadData ∉ (initializeCamera serialize p o).1) := by
  refine ⟨readReady_nil_iff, ?_, ?_, ?_⟩
  · intro rest
    exact readReady_unexpected tagB rest (by decide) (by decide)
  · intro o h
    exact (readReady_nil_iff o.inbound).1 (initializeCamera_nil serialize p o h)
  · intro o rest hin
    have hne : readReady o.inbound ≠ .nil := by
      rw [hin, readReady_unexpected tagB rest (by decide) (by decide)]
      simp
    exact ⟨fun h => hne (initializeCamera_nil serialize p o (Or.inl h)),
      fun h => hne (initializeCamera_nil serialize p o (Or.inr h))⟩

/-- The run in which every step succeeds and the handshake read gives a `'b'`
message: `initialize` does not return `nil` and `readData` is not started. -/
theorem C5_ready_required_witness :
    (initializeCamera (ε := Unit) (fun p : List Byte => p) [1, 2]
        ⟨none, none, none, none, .readerFirst, none, .ok [tagB, 0, 0, 0, 0, 0, 0, 0, 0, 0]⟩).2
      ≠ .nil
    ∧ Effect.goReadData ∉ (initializeCamera (ε := Unit) (fun p : List Byte => p) [1, 2]
        ⟨none, none, none, none, .readerFirst, none, .ok [tagB, 0, 0, 0, 0, 0, 0, 0, 0, 0]⟩).1 :=
  (C5_ready_required (ε := Unit) (fun p : List Byte => p) [1, 2]).2.2.2
    ⟨none, none, none, none, .readerFirst, none, .ok [tagB, 0, 0, 0, 0, 0, 0, 0, 0, 0]⟩
    [0, 0, 0, 0, 0, 0, 0, 0, 0] rfl

/-! ## Unexpected tags -/

theorem hexDigit_inj (a b : Fin 16) (h : hexDigit a.val = hexDigit b.val) : a = b := by
  revert a b
  decide

theorem fmtHex2_inj (x y : Byte) (h : fmtHex2 x = fmtHex2 y) : x = y := by
  simp only [fmtHex2, List.cons.injEq, and_true] at h
  have hx := x.isLt
  have hy := y.isLt
  have h1 := hexDigit_inj ⟨x.val / 16, by omega⟩ ⟨y.val / 16, by omega⟩ h.1
  have h2 := hexDigit_inj ⟨x.val % 16, by omega⟩ ⟨y.val % 16, by omega⟩ h.2
  have e1 : x.val / 16 = y.val / 16 := congrArg Fin.val h1
  have e2 : x.val % 16 = y.val % 16 := congrArg Fin.val h2
  apply Fin.ext
  omega

theorem fmtChar_inj (x y : Byte) (h : fmtChar x = fmtChar y) : x = y := by
  have hx := x.isLt
  have hy := y.isLt
  unfold fmtChar at h
  by_cases cx : x.val < 128 <;> by_cases cy : y.val < 128
  · simpa [cx, cy] using h
  · simp [cx, cy] at h
  · simp [cx, cy] at h
  · simp only [cx, cy, if_false, List.cons.injEq, and_true] at h
    have e1 : (192 + x.val / 64) % 256 = (192 + y.val / 64) % 256 := congrArg Fin.val h.1
    have e2 : (128 + x.val % 64) % 256 = (128 + y.val % 64) % 256 := congrArg Fin.val h.2
    apply Fin.ext
    omega

theorem unexpectedReady_inj (x y : Byte) (h : unexpectedReady x = unexpectedReady y) : x = y := by
  unfold unexpectedReady at h
  rw [List.append_assoc, List.append_assoc] at h
  exact fmtHex2_inj x y (List.append_cancel_right (List.append_cancel_left h))

theorem unexpectedData_inj (x y : Byte) (h : unexpectedData x = unexpectedData y) : x = y := by
  unfold unexpectedData at h
  rw [List.append_assoc, List.append_assoc] at h
  have h2 := List.append_cancel_left h
  have hl : (fmtChar x).length = (fmtChar y).length := by
    have := congrArg List.length h2
    simpa using this
  exact fmtChar_inj x y (List.append_inj_left h2 hl)

theorem readDataStep_unexpected {ε : Type}
    (unmarshal : List Byte → Except ε (List (List Byte))) (x : Byte) (rest : List Byte)
    (he : x ≠ tagE) (hb : x ≠ tagB) :
    readDataStep unmarshal (x :: rest) = .returned (.errorf (unexpectedData x)) := by
  simp [readDataStep, he, hb]

/-- C6: a message whose tag is neither `'e'` nor `'r'` makes `readReady` return
an error, a message whose tag is neither `'e'` nor `'b'` makes `readData` return
an error without a call of the callback, whatever follows on the pipe; the text
of either error holds the tag, and two different tags give two different texts. -/
theorem C6_unexpected_tag_fails_closed {ε : Type}
    (unmarshal : List Byte → Except ε (List (List Byte))) :
    (∀ (x : Byte) (rest : List Byte), x ≠ tagE → x ≠ tagR →
        readReady (ε := ε) (.ok (x :: rest)) = .err (.errorf (unexpectedReady x)))
    ∧ (∀ (x : Byte) (rest : List Byte) (more : List (List Byte)) (fail : ε),
        x ≠ tagE → x ≠ tagB →
        readData unmarshal ((x :: rest) :: more) fail
          = ([], .err (.errorf (unexpectedData x))))
    ∧ (∀ x y : Byte, unexpectedReady x = unexpectedReady y → x = y)
    ∧ (∀ x y : Byte, unexpectedData x = unexpectedData y → x = y) := by
  refine ⟨fun x rest he hr => readReady_unexpected x rest he hr, ?_,
    unexpectedReady_inj, unexpectedData_inj⟩
  intro x rest more fail he hb
  simp [readData, readDataStep_unexpected unmarshal x rest he hb]

theorem C6_unexpected_tag_fails_closed_witness :
    tagR ≠ tagE ∧ tagR ≠ tagB
    ∧ readData (ε := Unit) (fun _ => .ok []) ([tagR] :: [[tagB]]) ()
        = ([], .err (.errorf (unexpectedData tagR))) :=
  ⟨by decide, by decide,
    (C6_unexpected_tag_fails_closed (ε := Unit) (fun _ => .ok [])).2.1 tagR [] [[tagB]] ()
      (by decide) (by decide)⟩

/-! ## The streaming loop -/

theorem readDataStep_nil {ε : Type} (unmarshal : List Byte → Except ε (List (List Byte))) :
    readDataStep unmarshal [] = .panic := by
  simp [readDataStep]

theorem wellFormedB_iff_called {ε : Type} (unmarshal : List Byte → Except ε (List (List Byte)))
    (buf : List Byte) :
    wellFormedB unmarshal buf = true
      ↔ ∃ tmp nalus, timestampOf buf = some tmp ∧ unmarshal (buf.drop 9) = .ok nalus
          ∧ readDataStep unmarshal buf = .called (durationOf tmp) nalus := by
  cases buf with
  | nil => simp [wellFormedB, timestampOf]
  | cons tag rest =>
    by_cases hb : tag = tagB
    · subst hb
      by_cases hl : 8 ≤ rest.length
      · obtain ⟨tmp, ht, h⟩ := readDataStep_full unmarshal rest hl
        rcases h with ⟨nalus, hu, hs⟩ | ⟨e, hu, hs⟩
        · have hu' : unmarshal (rest.drop 8) = .ok nalus := hu
          constructor
          · intro _
            exact ⟨tmp, nalus, ht, hu, hs⟩
          · intro _
            simp only [wellFormedB, List.drop_succ_cons, hu', Except.isOk, Except.toBool,
              List.length_cons]
            simp
            omega
        · have hu' : unmarshal (rest.drop 8) = .error e := hu
          constructor
          · intro h
            simp [wellFormedB, hu', Except.isOk, Except.toBool] at h
          · rintro ⟨tmp2, nalus, _, hu2, _⟩
            rw [hu] at hu2
            cases hu2
      · have hp := readDataStep_truncated unmarshal rest (by omega)
        constructor
        · intro h
          simp [wellFormedB] at h
          omega
        · rintro ⟨tmp2, nalus, _, _, hs⟩
          rw [hp] at hs
          cases hs
    · constructor
      · intro h
        simp [wellFormedB, hb] at h
      · rintro ⟨tmp2, nalus, _, _, hs⟩
        by_cases he : tag = tagE
        · subst he
          simp [readDataStep] at hs
        · rw [readDataStep_unexpected unmarshal tag rest he hb] at hs
          cases hs

theorem readDataStep_not_wellFormed {ε : Type}
    (unmarshal : List Byte → Except ε (List (List Byte))) (buf : List Byte)
    (h : wellFormedB unmarshal buf = false) :
    ∀ dts nalus, readDataStep unmarshal buf ≠ .called dts nalus := by
  intro dts nalus hs
  have hw : wellFormedB unmarshal buf = true := by
    cases buf with
    | nil => simp [readDataStep] at hs
    | cons tag rest =>
      by_cases hb : tag = tagB
      · subst hb
        by_cases hl : 8 ≤ rest.length
        · obtain ⟨tmp, ht, h2⟩ := readDataStep_full unmarshal rest hl
          rcases h2 with ⟨n2, hu, hs2⟩ | ⟨e, hu, hs2⟩
          · exact (wellFormedB_iff_called unmarshal _).2 ⟨tmp, n2, ht, hu, hs2⟩
          · rw [hs2] at hs
            cases hs
        · rw [readDataStep_truncated unmarshal rest (by omega)] at hs
          cases hs
      · by_cases he : tag = tagE
        · subst he
          simp [readDataStep] at hs
        · rw [readDataStep_unexpected unmarshal tag rest he hb] at hs
          cases hs
  rw [h] at hw
  cases hw

/-- The calls `readData` makes are those of the well-formed `'b'` messages
that come before the first message that is not one, in the order of the pipe,
one call for each. -/
theorem readData_calls {ε : Type} (unmarshal : List Byte → Except ε (List (List Byte)))
    (msgs : List (List Byte)) (fail : ε) :
    (readData unmarshal msgs fail).1
      = (msgs.takeWhile (wellFormedB unmarshal)).filterMap (callOf unmarshal) := by
  induction msgs with
  | nil => rfl
  | cons buf rest ih =>
    cases hw : wellFormedB unmarshal buf with
    | true =>
      obtain ⟨tmp, nalus, _, _, hs⟩ := (wellFormedB_iff_called unmarshal buf).1 hw
      simp [readData, hs, List.takeWhile_cons, hw, callOf, ih]
    | false =>
      have hn := readDataStep_not_wellFormed unmarshal buf hw
      cases hs : readDataStep unmarshal buf with
      | called dts nalus => exact absurd hs (hn dts nalus)
      | returned e => simp [readData, hs, List.takeWhile_cons, hw]
      | panic => simp [readData, hs, List.takeWhile_cons, hw]

/-- The call made for a well-formed `'b'` message carries the timestamp and the
NAL units of that message. -/
theorem callOf_wellFormed {ε : Type} (unmarshal : List Byte → Except ε (List (List Byte)))
    (buf : List Byte) (hw : wellFormedB unmarshal buf = true) :
    ∃ tmp nalus, timestampOf buf = some tmp ∧ unmarshal (buf.drop 9) = .ok nalus
      ∧ callOf unmarshal buf = some (durationOf tmp, nalus) := by
  obtain ⟨tmp, nalus, ht, hu, hs⟩ := (wellFormedB_iff_called unmarshal buf).1 hw
  exact ⟨tmp, nalus, ht, hu, by simp [callOf, hs]⟩

theorem readDataStep_panic_iff {ε : Type} (unmarshal : List Byte → Except ε (List (List Byte)))
    (buf : List Byte) : readDataStep unmarshal buf = .panic ↔ truncated buf = true := by
  cases buf with
  | nil => simp [readDataStep, truncated]
  | cons tag rest =>
    by_cases hb : tag = tagB
    · subst hb
      by_cases hl : 8 ≤ rest.length
      · obtain ⟨tmp, ht, h2⟩ := readDataStep_full unmarshal rest hl
        have ht2 : truncated (tagB :: rest) = false := by
          simp [truncated]
          omega
        rcases h2 with ⟨n2, hu, hs2⟩ | ⟨e, hu, hs2⟩ <;> simp [hs2, ht2]
      · have ht2 : truncated (tagB :: rest) = true := by
          simp [truncated]
          omega
        simp [readDataStep_truncated unmarshal rest (by omega), ht2]
    · have ht2 : truncated (tag :: rest) = false := by
        simp [truncated, hb]
      by_cases he : tag = tagE
      · subst he
        simp [readDataStep, ht2]
      · simp [readDataStep_unexpected unmarshal tag rest he hb, ht2]

/-- On a pipe without truncated message `readData` returns, with exactly one error. -/
theorem readData_returns {ε : Type} (unmarshal : List Byte → Except ε (List (List Byte)))
    (msgs : List (List Byte)) (fail : ε) (h : ∀ m ∈ msgs, truncated m = false) :
    ∃ e, (readData unmarshal msgs fail).2 = .err e := by
  induction msgs with
  | nil => exact ⟨.ext fail, rfl⟩
  | cons buf rest ih =>
    have hb : truncated buf = false := h buf (List.mem_cons_self buf rest)
    have hr := ih (fun m hm => h m (List.mem_cons_of_mem buf hm))
    cases hs : readDataStep unmarshal buf with
    | called dts nalus => simpa [readData, hs] using hr
    | returned e => exact ⟨e, by simp [readData, hs]⟩
    | panic =>
      have := (readDataStep_panic_iff unmarshal buf).1 hs
      rw [hb] at this
      cases this

/-- C7: on a pipe that delivers the one-byte message `b` and then fails,
`readData` returns no error: the index expression `buf[8]` is out of range. -/
theorem C7_truncated_frame_no_error {ε : Type}
    (unmarshal : List Byte → Except ε (List (List Byte))) (fail : ε) :
    readData unmarshal [[tagB]] fail = ([], .panic) := by
  simp [readData, readDataStep_truncated unmarshal [] (by decide)]

/-! ## The configure message -/

/-- C8: `reloadParams(p)` writes one message, and `initialize` with
`c.Params = p` writes one right after the start of the process; that message is
the byte `'c'` followed by `p.serialize()`: its first byte is `'c'`, its length
is one more than that of `p.serialize()`, and without its first byte it is
`p.serialize()`. -/
theorem C8_configure_message {ε P : Type} (serialize : P → List Byte) (p : P) :
    reloadParams serialize p = [.writeOut (tagC :: serialize p)]
    ∧ (∀ o : InitOutcomes ε, o.dump = none → o.pipeOut = none → o.pipeIn = none →
        o.start = none →
        ∃ post, (initializeCamera serialize p o).1
          = [.dumpComponent, .newPipeOut, .newPipeIn, .cmdStart,
              .writeOut (tagC :: serialize p)] ++ post)
    ∧ configureMsg serialize p = tagC :: serialize p
    ∧ (configureMsg serialize p)[0]? = some tagC
    ∧ (configureMsg serialize p).length = 1 + (serialize p).length
    ∧ (configureMsg serialize p).drop 1 = serialize p := by
  refine ⟨rfl, ?_, rfl, by simp [configureMsg], ?_, rfl⟩
  · intro o hd hpo hpi hs
    unfold initializeCamera
    simp only [hd, hpo, hpi, hs]
    cases o.first <;> cases readReady o.inbound <;>
      simp [startedTrace, configureMsg]
  · simp [configureMsg]
    omega

theorem C8_configure_message_witness :
    ∃ post, (initializeCamera (ε := Unit) (fun p : List Byte => p) [1, 2]
        ⟨none, none, none, none, .readerFirst, none, .ok [tagR]⟩).1
      = [.dumpComponent, .newPipeOut, .newPipeIn, .cmdStart, .writeOut [tagC, 1, 2]] ++ post :=
  (C8_configure_message (ε := Unit) (fun p : List Byte => p) [1, 2]).2.1
    ⟨none, none, none, none, .readerFirst, none, .ok [tagR]⟩ rfl rfl rfl rfl

/-! ## The order of the effects of `close` -/

/-- C9 fails as stated: in `close` the receive from `readerDone` does not come
before the two pipes are closed. -/
theorem C9_counterexample :
    ¬ (close.indexOf .recvWaitDone < close.indexOf .closeOut
      ∧ close.indexOf .recvWaitDone < close.indexOf .closeIn
      ∧ close.indexOf .recvReaderDone < close.indexOf .closeOut
      ∧ close.indexOf .recvReaderDone < close.indexOf .closeIn) := by
  decide

/-- C9, amended: `close` performs, once each and in this order, the write of
the message `e` on the outbound pipe, the receive from `waitDone`, the close of
the outbound pipe, the close of the inbound pipe, the receive from `readerDone`
and `freeComponent`; so the wait for the process comes before either pipe is
closed, and the wait for the reader comes after both pipes are closed. -/
theorem C9_close_order :
    close = [.writeOut [tagE], .recvWaitDone, .closeOut, .closeIn, .recvReaderDone,
      .freeComponent]
    ∧ close.indexOf .recvWaitDone < close.indexOf .closeOut
    ∧ close.indexOf .recvWaitDone < close.indexOf .closeIn
    ∧ close.indexOf .closeOut < close.indexOf .recvReaderDone
    ∧ close.indexOf .closeIn < close.indexOf .recvReaderDone
    ∧ close.indexOf .recvReaderDone < close.indexOf .freeComponent
    ∧ close.count .recvWaitDone = 1 ∧ close.count .recvReaderDone = 1
    ∧ close.count .closeOut = 1 ∧ close.count .closeIn = 1
    ∧ close.count .freeComponent = 1 := by
  decide

/-! ## The resources of `initialize` -/

/-- C10: when `dumpComponent` succeeds and `initialize` returns an error, each
pipe that was created is closed once and `freeComponent` is called once; when
`initialize` returns `nil` no pipe is closed and `freeComponent` is not called;
and when the handshake reader returns an error the trace ends with the write of
the message `e`, the receive from `waitDone`, the close of both pipes and
`freeComponent`, no pipe being closed before. -/
theorem C10_initialize_releases {ε P : Type} (serialize : P → List Byte) (p : P)
    (o : InitOutcomes ε) (hd : o.dump = none) :
    (∀ e, (initializeCamera serialize p o).2 = .err e →
        (initializeCamera serialize p o).1.count .closeOut
            = (if o.pipeOut.isNone then 1 else 0)
        ∧ (initializeCamera serialize p o).1.count .closeIn
            = (if o.pipeOut.isNone && o.pipeIn.isNone then 1 else 0)
        ∧ (initializeCamera serialize p o).1.count .freeComponent = 1)
    ∧ ((initializeCamera serialize p o).2 = .nil →
        (initializeCamera serialize p o).1.count .closeOut = 0
        ∧ (initializeCamera serialize p o).1.count .closeIn = 0
        ∧ (initializeCamera serialize p o).1.count .freeComponent = 0)
    ∧ (∀ e, o.pipeOut = none → o.pipeIn = none → o.start = none → o.first = .readerFirst →
        readReady o.inbound = .err e →
        (initializeCamera serialize p o).2 = .err e
        ∧ (initializeCamera serialize p o).1
            = startedTrace serialize p
              ++ [.recvReaderDone, .writeOut [tagE], .recvWaitDone, .closeOut, .closeIn,
                .freeComponent]
        ∧ (startedTrace serialize p).count .closeOut = 0
        ∧ (startedTrace serialize p).count .closeIn = 0) := by
  unfold initializeCamera
  simp only [hd]
  cases hpo : o.pipeOut with
  | some e1 => simp
  | none =>
    cases hpi : o.pipeIn with
    | some e2 => simp
    | none =>
      cases hs : o.start with
      | some e3 => simp
      | none =>
        cases hf : o.first <;> cases hr : readReady o.inbound <;>
          simp [startedTrace]

theorem C10_initialize_releases_witness :
    (initializeCamera (ε := Unit) (fun p : List Byte => p) [1, 2]
        ⟨none, none, none, none, .readerFirst, none, .ok [tagB]⟩).1
      = startedTrace (fun p : List Byte => p) [1, 2]
          ++ [.recvReaderDone, .writeOut [tagE], .recvWaitDone, .closeOut, .closeIn,
            .freeComponent] :=
  ((C10_initialize_releases (ε := Unit) (fun p : List Byte => p) [1, 2]
      ⟨none, none, none, none, .readerFirst, none, .ok [tagB]⟩ rfl).2.2
    (.errorf (unexpectedReady tagB)) rfl rfl rfl rfl
    (readReady_unexpected tagB [] (by decide) (by decide))).2.1

end RpiCamera
